import Mathlib

/-!
Verification of the transcript-insight extractor: a shallow embedding of
`src/transcript_extractor.py` (class `TranscriptInsightExtractor`) together
with proofs about its chunking pipeline, token estimator, LLM-call loop and
markdown report assembly.

Modelling conventions:
* Python `float` arithmetic on token estimates is modelled with exact
  rationals; the float literal `1.3` becomes the rational `13/10`.  All
  concrete inputs used below stay far from comparison knife edges, so the
  rational model and Python's binary floats make identical branch choices
  on them.
* Python `int` values that can go negative (`max_model_tokens - 1000`) are
  modelled with `Int` and then cast to the rational budget; list indices
  are `Nat`.
* External collaborators (the OpenRouter HTTP transport behind `_call_llm`,
  the standard-library `json.loads`, `datetime.now`) are modelled as
  explicit parameters, exactly as the spec treats them (opaque
  capabilities).
-/

/-- Models Python `str.split()` with no separator argument: counts maximal
whitespace-free runs.  `countWords cs inWord` counts the words of `cs`,
where `inWord` records whether the previous character was inside a word. -/
def countWords : List Char → Bool → Nat
  | [], _ => 0
  | c :: rest, inWord =>
    if c.isWhitespace then countWords rest false
    else (if inWord then 0 else 1) + countWords rest true

/-- `len(text.split())` for Python `text.split()` (split on whitespace runs,
empty pieces dropped). -/
def pyWordCount (s : String) : Nat := countWords s.data false

/-- Source `_estimate_tokens`: `len(text.split()) * 1.3`, the float `1.3`
modelled as the exact rational `13/10`. -/
def _estimate_tokens (text : String) : ℚ := (pyWordCount text : ℚ) * (13 / 10)

/-- Python slice `l[a:b]` for `0 ≤ a ≤ b` (out-of-range bounds clamp, and
`a > b` yields `[]`, matching truncated `Nat` subtraction). -/
def pySlice (l : List α) (a b : Nat) : List α := (l.drop a).take (b - a)

/-- `sum(self._estimate_tokens(s) for s in chunk)` from the source's overlap
reseeding, as a left fold starting at `0`. -/
def sumTokens (l : List String) : ℚ := l.foldl (fun t s => t + _estimate_tokens s) 0

/-- The loop state of `_chunk_transcript`: accumulated chunks, the chunk
being built, its running estimated cost, and `last_chunk_start_idx`. -/
structure ChunkState where
  chunks : List (List String)
  current_chunk : List String
  current_tokens : ℚ
  last_chunk_start_idx : Nat

/-- One iteration of the `for i, segment in enumerate(formatted_segments)`
loop of `_chunk_transcript`.  The overlap start is
`max(last_chunk_start_idx + 1, i - overlap_tokens)`; the source computes it
over Python ints, where `i - overlap_tokens` may be negative, but since
`last_chunk_start_idx + 1 ≥ 1` the `max` agrees with truncated `Nat`
subtraction (see `overlap_start_int_agrees`). -/
def chunkStep (overlap_tokens : Nat) (formatted_segments : List String)
    (available_tokens : ℚ) (st : ChunkState) (i : Nat) : ChunkState :=
  let segment := formatted_segments.getD i ""
  let segment_tokens := _estimate_tokens segment
  let st' :=
    if available_tokens < st.current_tokens + segment_tokens then
      let overlap_start := max (st.last_chunk_start_idx + 1) (i - overlap_tokens)
      { chunks := st.chunks ++ [st.current_chunk]
        current_chunk := pySlice formatted_segments overlap_start i
        current_tokens := sumTokens (pySlice formatted_segments overlap_start i)
        last_chunk_start_idx := overlap_start }
    else st
  { st' with current_chunk := st'.current_chunk ++ [segment]
             current_tokens := st'.current_tokens + segment_tokens }

/-- Source `_chunk_transcript(formatted_segments, max_model_tokens)`:
reserves 1000 tokens (`available_tokens` may be negative, hence `Int`),
walks the segments accumulating chunks with overlap reseeding, and flushes
the final chunk when non-empty.  (`total_tokens` in the source is only
printed, so it is not part of the state.) -/
def _chunk_transcript (overlap_tokens : Nat) (formatted_segments : List String)
    (max_model_tokens : Int) : List (List String) :=
  let available_tokens : ℚ := (max_model_tokens : ℚ) - 1000
  let final := (List.range formatted_segments.length).foldl
    (chunkStep overlap_tokens formatted_segments available_tokens)
    ⟨[], [], 0, 0⟩
  if final.current_chunk.isEmpty then final.chunks
  else final.chunks ++ [final.current_chunk]

/-- Index-level shadow of `_chunk_transcript`: the same loop, but each chunk
is recorded as its pair of input indices `(start, stop)` (a Python slice
`formatted_segments[start:stop]`) instead of as a list of segment strings.
`chunkBounds_spec` proves it simulates `_chunk_transcript` exactly. -/
structure BoundState where
  chunks : List (Nat × Nat)
  cur : Nat × Nat
  last : Nat

/-- One loop iteration at the index level.  The reseeded chunk start is
clamped with `min _ i` because the Python slice `segments[overlap_start:i]`
is empty whenever `overlap_start > i` (see `pySlice_min_left`). -/
def boundStep (overlap_tokens : Nat) (formatted_segments : List String)
    (available_tokens : ℚ) (st : BoundState) (i : Nat) : BoundState :=
  let segment_tokens := _estimate_tokens (formatted_segments.getD i "")
  let st' :=
    if available_tokens <
        sumTokens (pySlice formatted_segments st.cur.1 st.cur.2) + segment_tokens then
      let overlap_start := max (st.last + 1) (i - overlap_tokens)
      { chunks := st.chunks ++ [st.cur]
        cur := (min overlap_start i, i)
        last := overlap_start }
    else st
  { st' with cur := (st'.cur.1, st'.cur.2 + 1) }

/-- The chunk boundaries produced by `_chunk_transcript`, as index pairs. -/
def chunkBounds (overlap_tokens : Nat) (formatted_segments : List String)
    (max_model_tokens : Int) : List (Nat × Nat) :=
  let available_tokens : ℚ := (max_model_tokens : ℚ) - 1000
  let final := (List.range formatted_segments.length).foldl
    (boundStep overlap_tokens formatted_segments available_tokens)
    ⟨[], (0, 0), 0⟩
  if final.cur.1 < final.cur.2 then final.chunks ++ [final.cur]
  else final.chunks

/-- The set of input indices covered by a list of chunk boundary pairs. -/
def unionB (l : List (Nat × Nat)) : Finset Nat :=
  l.foldr (fun p s => Finset.Ico p.1 p.2 ∪ s) ∅

/-- One transcript segment from the external transcript source:
`{'start': seconds, 'text': ...}`.  The source truncates the start with
`int(segment['start'])`; the resulting nonnegative second count is modelled
directly. -/
structure TranscriptSegment where
  start : Nat
  text : String

/-- Zero-padding of Python `f"{n:02d}"`. -/
def pad2 (n : Nat) : String := if n < 10 then "0" ++ toString n else toString n

/-- The formatted-segment construction inlined at the top of
`process_transcript`: `f"[{minutes:02d}:{seconds:02d}] {segment['text']}"`
with `minutes = start // 60` and `seconds = start % 60`. -/
def format_segment (seg : TranscriptSegment) : String :=
  "[" ++ pad2 (seg.start / 60) ++ ":" ++ pad2 (seg.start % 60) ++ "] " ++ seg.text

/-- Python `sep.join(parts)`. -/
def joinSep (sep : String) : List String → String
  | [] => ""
  | [x] => x
  | x :: y :: rest => x ++ sep ++ joinSep sep (y :: rest)

/-- Source `_merge_running_notes`: early-returns `""` on an empty list,
otherwise `"\n\n".join(notes_chunks)`. -/
def _merge_running_notes (notes_chunks : List String) : String :=
  if notes_chunks.isEmpty then "" else joinSep "\n\n" notes_chunks

/-- Source `_create_note_taking_prompt`. -/
def _create_note_taking_prompt (text : String) : String :=
  "Take detailed notes on this transcript section, paying attention to timestamps:\n" ++
    text ++
    "\n\nFocus on:\n1. Key points and topics discussed, including when they occur (use timestamp ranges)\n2. Any AI tools mentioned and their context, noting the timestamp ranges where they are discussed\n3. Important quotes or examples\n\nFormat your notes with timestamp ranges like this:\n[00:30-01:45] Note content here\n[01:45-02:30] Another note here\n\nFor AI tools specifically, make sure to clearly indicate the full timestamp range where each tool is discussed."

/-- Source `_create_tools_analysis_prompt` (literal JSON braces written as
escapes). -/
def _create_tools_analysis_prompt (notes : String) : String :=
  "Analyze these timestamped notes from a video and extract information about all AI tools mentioned:\n\n" ++
    notes ++
    "\n\nFor each AI tool, find the timestamp ranges where it is discussed in the notes (format: [MM:SS-MM:SS]).\n\nONLY OUTPUT VALID JSON. DO NOT OUTPUT ANYTHING ELSE. NO EXPLANATIONS.\n\nFormat your response as JSON:\n\x7b\n    \"ai_tools\": [\n        \x7b\n            \"name\": \"tool name\",\n            \"description\": \"brief description of the tool\",\n            \"timestamp_ranges\": [\"00:30-01:45\", \"02:15-03:00\"],  # All ranges where this tool is discussed\n            \"usage_context\": \"how it was used or discussed\",\n            \"sentiment\": \"positive/negative/mixed\",\n            \"features\": [\"feature 1\", \"feature 2\"],\n            \"limitations\": [\"limitation 1\", \"limitation 2\"],\n            \"use_cases\": [\"use case 1\", \"use case 2\"],\n            \"integrations\": [\"integration 1\", \"integration 2\"],\n            \"pricing\": \"pricing information if mentioned or null\",\n            \"examples\": [\"example 1\", \"example 2\"]\n        \x7d\n    ]\n\x7d"

/-- Source `_create_final_summary_prompt`. -/
def _create_final_summary_prompt (notes : String) : String :=
  "Create a high-level executive summary of this video based on these notes:\n\n" ++
    notes ++
    "\n\nFocus on:\n1. The main purpose and key message of the video\n2. The most significant insights or takeaways\n3. Who would benefit most from this content\n4. Any overarching themes or patterns\n\nKeep the summary concise but comprehensive, focusing on the big picture rather than specific details."

/-- One `_call_llm` invocation, as seen by the pipeline: the external HTTP
transport either yields the generated text or raises (`raise_for_status` /
`RequestException`, re-raised by `_call_llm`).  The transport is modelled
as an oracle indexed by how many calls were issued before, also receiving
the prompt and model the pipeline passes — the §6 `TextGenerator`
capability. -/
abbrev LLMOracle := Nat → String → String → Except String String

/-- The constructor arguments of `TranscriptInsightExtractor` that the
pipeline logic reads.  (`openrouter_api_key`, `max_output_tokens` and
`provider_preferences` only shape the HTTP request inside `_call_llm`,
which the oracle absorbs; `thinking_model_max_tokens` is never read.) -/
structure ExtractorConfig where
  overlap_tokens : Nat := 1000
  base_model : String := "google/gemini-2.0-flash-exp:free"
  thinking_model : String := "google/gemini-2.0-flash-thinking-exp:free"
  base_model_max_tokens : Int := 4000

/-- Source dataclass `VideoInsights`. -/
structure VideoInsights where
  running_notes : String
  ai_tools_json : String
  final_summary : Option String := none
  timestamp_map : Option (List (Int × String)) := none

/-- The note-taking loop of `process_transcript`: one `_call_llm` per
chunk, strictly sequentially, appending each chunk's notes in order.  The
first failing call aborts the loop (Python propagates the exception).  The
second component counts the LLM calls issued so far. -/
def noteLoop (oracle : LLMOracle) (base_model : String) :
    List (List String) → Nat → List String → Except String (List String) × Nat
  | [], k, acc => (.ok acc, k)
  | chunk :: rest, k, acc =>
    match oracle k (_create_note_taking_prompt (joinSep " " chunk)) base_model with
    | .error e => (.error e, k + 1)
    | .ok chunk_notes => noteLoop oracle base_model rest (k + 1) (acc ++ [chunk_notes])

/-- Source `process_transcript`: format the segments, chunk them, take
notes chunk by chunk, merge the notes, then issue the tools-analysis call
and the final-summary call.  Any failing call aborts the whole run with
that error and no artifact; the second component is the number of LLM
calls issued. -/
def process_transcript (oracle : LLMOracle) (cfg : ExtractorConfig)
    (transcript_data : List TranscriptSegment) : Except String VideoInsights × Nat :=
  let formatted_segments := transcript_data.map format_segment
  let transcript_chunks :=
    _chunk_transcript cfg.overlap_tokens formatted_segments cfg.base_model_max_tokens
  match noteLoop oracle cfg.base_model transcript_chunks 0 [] with
  | (.error e, k) => (.error e, k)
  | (.ok running_notes_chunks, k) =>
    let running_notes := _merge_running_notes running_notes_chunks
    match oracle k (_create_tools_analysis_prompt running_notes) cfg.base_model with
    | .error e => (.error e, k + 1)
    | .ok ai_tools_json =>
      match oracle (k + 1) (_create_final_summary_prompt running_notes) cfg.thinking_model with
      | .error e => (.error e, k + 2)
      | .ok final_summary =>
        (.ok ⟨running_notes, ai_tools_json, some final_summary, none⟩, k + 2)

/-- A parsed JSON value — the result of a successful Python `json.loads`.
Numbers are modelled as rationals. -/
inductive JValue where
  | null : JValue
  | bool : Bool → JValue
  | num : ℚ → JValue
  | str : String → JValue
  | arr : List JValue → JValue
  | obj : List (String × JValue) → JValue

/-- Python `v[key]` on a parsed JSON value: a dict lookup (`KeyError` when
the key is missing), `TypeError` on any non-dict.  All uncaught Python
exceptions are collapsed into `Except.error ()`. -/
def jGetItem (v : JValue) (key : String) : Except Unit JValue :=
  match v with
  | .obj fields =>
    match fields.find? (fun p => p.1 == key) with
    | some p => .ok p.2
    | none => .error ()
  | _ => .error ()

/-- Python `v.get(key, dflt)`; `AttributeError` on a non-dict (in the
source this is only reached after `tool['name']` has succeeded, so the
receiver is a dict). -/
def jGet (v : JValue) (key : String) (dflt : JValue) : Except Unit JValue :=
  match v with
  | .obj fields => .ok (((fields.find? (fun p => p.1 == key)).map Prod.snd).getD dflt)
  | _ => .error ()

/-- Python truthiness of a parsed JSON value (`if timestamp_ranges:`,
`if tool.get('features'):`, …). -/
def jTruthy : JValue → Bool
  | .null => false
  | .bool b => b
  | .num q => decide (q ≠ 0)
  | .str s => !s.data.isEmpty
  | .arr xs => !xs.isEmpty
  | .obj fs => !fs.isEmpty

/-- Python `for x in v`: lists iterate their elements, strings iterate
their characters (as one-character strings), dicts iterate their keys;
anything else raises `TypeError`. -/
def jIter : JValue → Except Unit (List JValue)
  | .arr xs => .ok xs
  | .str s => .ok (s.data.map (fun c => .str (String.mk [c])))
  | .obj fs => .ok (fs.map (fun p => .str p.1))
  | _ => .error ()

/-- Python `str(v)` as invoked by the source's f-strings.  The claims below
only ever format strings, numbers, `None` and booleans; the `repr`-style
printing of nested containers is abbreviated (no theorem depends on it). -/
def pyStr : JValue → String
  | .null => "None"
  | .bool true => "True"
  | .bool false => "False"
  | .num q => if q.den = 1 then toString q.num else toString q
  | .str s => s
  | .arr _ => "[...]"
  | .obj _ => "\x7b...\x7d"

/-- Python `s.strip()`: drop leading and trailing whitespace. -/
def pyStrip (s : String) : String :=
  String.mk (((s.data.dropWhile Char.isWhitespace).reverse.dropWhile Char.isWhitespace).reverse)

/-- Python `s.split(sep)` for a one-character separator; never returns an
empty list. -/
def splitChar : List Char → Char → List (List Char)
  | [], _ => [[]]
  | c :: rest, sep =>
    if c = sep then [] :: splitChar rest sep
    else
      match splitChar rest sep with
      | [] => [[c]]
      | w :: ws => (c :: w) :: ws

/-- All-digits check plus decimal value, the digit part of `int(...)`. -/
def parseDigits : List Char → Option Nat
  | [] => none
  | cs =>
    if cs.all (fun c => c.isDigit) then
      some (cs.foldl (fun n c => n * 10 + (c.toNat - 48)) 0)
    else none

/-- Python `int(s)` (`ValueError` modelled as `Except.error`): optional
surrounding whitespace, an optional sign, then decimal digits.  (Digit
group underscores, accepted by Python, are not modelled; no theorem
depends on them.) -/
def pyInt (s : String) : Except Unit Int :=
  match (pyStrip s).data with
  | '-' :: rest =>
    match parseDigits rest with
    | some n => .ok (-(n : Int))
    | none => .error ()
  | '+' :: rest =>
    match parseDigits rest with
    | some n => .ok (n : Int)
    | none => .error ()
  | cs =>
    match parseDigits cs with
    | some n => .ok (n : Int)
    | none => .error ()

/-- The deep-link loop of `format_insights_markdown` (source lines
253-261): per range, take the text before the first `-`
(`time_range.split('-')[0]`), strip it, split on `:`, convert with
`minutes, seconds = map(int, ...)` — which raises `ValueError` unless
there are exactly two integer parts — and build the YouTube URL.  A
non-string range raises `AttributeError` at `.split`. -/
def buildLinks (video_id : String) : List JValue → Except Unit (List String)
  | [] => .ok []
  | time_range :: rest => do
    let tr ← (match time_range with
      | .str s => Except.ok s
      | _ => Except.error ())
    let start_time := pyStrip (String.mk (tr.data.takeWhile (fun c => c ≠ '-')))
    let total_seconds ← (match splitChar start_time.data ':' with
      | [mcs, scs] => do
        let minutes ← pyInt (String.mk mcs)
        let seconds ← pyInt (String.mk scs)
        Except.ok (minutes * 60 + seconds)
      | _ => Except.error ())
    let url := "https://www.youtube.com/watch?v=" ++ video_id ++ "&t=" ++
      toString total_seconds ++ "s"
    let rest_links ← buildLinks video_id rest
    Except.ok (("[🎥 " ++ tr ++ "](" ++ url ++ ")") :: rest_links)

/-- One optional scalar section of the per-tool markdown:
`if tool.get(key): formatted_tool += f"\n{heading} {tool[key]}\n"`. -/
def optScalarSection (tool : JValue) (key heading : String) (acc : String) :
    Except Unit String := do
  let v ← jGet tool key .null
  if jTruthy v then do
    let shown ← jGetItem tool key
    Except.ok (acc ++ "\n" ++ heading ++ " " ++ pyStr shown ++ "\n")
  else Except.ok acc

/-- One optional list section of the per-tool markdown:
`if tool.get(key): ... "\n".join(f"- {x}" for x in tool[key]) ...`. -/
def optListSection (tool : JValue) (key heading : String) (acc : String) :
    Except Unit String := do
  let v ← jGet tool key .null
  if jTruthy v then do
    let items_v ← jGetItem tool key
    let items ← jIter items_v
    Except.ok (acc ++ "\n" ++ heading ++ "\n" ++
      joinSep "\n" (items.map (fun x => "- " ++ pyStr x)) ++ "\n")
  else Except.ok acc

/-- Is this value the JSON string `"null"`?  (`tool['pricing'] != "null"`.) -/
def isStrNull : JValue → Bool
  | .str s => s == "null"
  | _ => false

/-- The pricing section:
`if tool.get('pricing') and tool['pricing'] != "null":`. -/
def pricingSection (tool : JValue) (acc : String) : Except Unit String := do
  let v ← jGet tool "pricing" .null
  if jTruthy v && !isStrNull v then do
    let shown ← jGetItem tool "pricing"
    Except.ok (acc ++ "\n**Pricing:** " ++ pyStr shown ++ "\n")
  else Except.ok acc

/-- The per-tool body of the `for tool in tools_data['ai_tools']` loop of
`format_insights_markdown` (source lines 245-284): mandatory `name` and
`description`, `timestamp_ranges` defaulting to `[]`, then the optional
sections in source order. -/
def format_tool (video_id : String) (tool : JValue) : Except Unit String := do
  let tool_name ← jGetItem tool "name"
  let description ← jGetItem tool "description"
  let timestamp_ranges ← jGet tool "timestamp_ranges" (.arr [])
  let base := "### " ++ pyStr tool_name ++ "\n"
  let with_links ←
    if jTruthy timestamp_ranges then do
      let ranges ← jIter timestamp_ranges
      let links ← buildLinks video_id ranges
      Except.ok (base ++ "**Discussed at:** " ++ joinSep " | " links ++ "\n\n")
    else Except.ok base
  let with_desc := with_links ++ pyStr description ++ "\n"
  let s1 ← optScalarSection tool "usage_context" "**Usage Context:**" with_desc
  let s2 ← optScalarSection tool "sentiment" "**Sentiment:**" s1
  let s3 ← optListSection tool "features" "**Features:**" s2
  let s4 ← optListSection tool "limitations" "**Limitations:**" s3
  let s5 ← optListSection tool "use_cases" "**Use Cases:**" s4
  let s6 ← optListSection tool "integrations" "**Integrations:**" s5
  let s7 ← pricingSection tool s6
  let s8 ← optListSection tool "examples" "**Examples:**" s7
  Except.ok s8

/-- The tools-section construction of `format_insights_markdown` on a
successfully parsed payload: `tools_data['ai_tools']`, the per-tool loop,
and the `"\n\n".join`. -/
def render_tools (video_id : String) (tools_data : JValue) : Except Unit String := do
  let tools_v ← jGetItem tools_data "ai_tools"
  let tools ← jIter tools_v
  let formatted_tools ← tools.mapM (format_tool video_id)
  Except.ok (joinSep "\n\n" formatted_tools)

/-- The markdown template of `format_insights_markdown` (the f-string at
source lines 291-303); `current_time` comes from the external
`datetime.now()` and is passed in. -/
def markdown_template (current_time video_id final_summary tools_section
    running_notes : String) : String :=
  "# Video Analysis Report\nGenerated on: " ++ current_time ++ "\nVideo ID: " ++
    video_id ++ "\n\n## Executive Summary\n" ++ final_summary ++
    "\n\n## AI Tools Mentioned\n" ++ tools_section ++
    "\n\n## Detailed Notes\n" ++ running_notes ++ "\n"

/-- Python `str(x)` applied to the `Optional[str]` summary by the
template's f-string. -/
def pyStrOpt : Option String → String
  | none => "None"
  | some s => s

/-- Source `format_insights_markdown`: parse `insights.ai_tools_json` with
the external `json.loads` (passed as a parameter; `none` models
`json.JSONDecodeError`), render the tools section, and fall back to a
fenced raw block only when parsing itself fails — `JSONDecodeError` is the
only exception the source catches, so any other exception (`KeyError`,
`TypeError`, `ValueError`) escapes as `Except.error`. -/
def format_insights_markdown (json_loads : String → Option JValue)
    (insights : VideoInsights) (video_id : String) (current_time : String) :
    Except Unit String := do
  let tools_section ←
    match json_loads insights.ai_tools_json with
    | some tools_data => render_tools video_id tools_data
    | none => Except.ok ("```\n" ++ insights.ai_tools_json ++ "\n```")
  Except.ok (markdown_template current_time video_id
    (pyStrOpt insights.final_summary) tools_section insights.running_notes)

/-- The simulation-and-invariant relation between the string-level loop
state of `_chunk_transcript` and the index-level state of `chunkBounds`,
after the loop has processed input indices `0, …, i-1` of `segs`:
the string state is the index state's image under slicing, the current
chunk is the slice `segs[cur.1:cur.2]` with `cur.2 = i`, finished chunks
are well-formed with nondecreasing starts, strictly increasing stops and
strictly increasing starts among non-empty chunks, and together with the
current chunk they cover exactly the indices `0, …, i-1`. -/
structure ChunkInv (segs : List String) (i : Nat) (S : ChunkState) (B : BoundState) : Prop where
  chunksEq : S.chunks = B.chunks.map (fun p => pySlice segs p.1 p.2)
  curEq : S.current_chunk = pySlice segs B.cur.1 B.cur.2
  tokEq : S.current_tokens = sumTokens S.current_chunk
  lastEq : S.last_chunk_start_idx = B.last
  cur_stop : B.cur.2 = i
  cur_le : B.cur.1 ≤ B.cur.2
  cur_last : B.cur.1 ≤ B.last
  bnd_wf : ∀ p ∈ B.chunks, p.1 ≤ p.2 ∧ p.2 < i
  starts_le : ∀ p ∈ B.chunks, p.1 ≤ B.cur.1
  starts_strict : ∀ p ∈ B.chunks, p.1 < p.2 → p.1 < B.cur.1
  starts_mono : List.Pairwise (· ≤ ·) (B.chunks.map Prod.fst)
  stops_mono : List.Pairwise (· < ·) (B.chunks.map Prod.snd)
  ne_starts_mono : List.Pairwise (· < ·)
    ((B.chunks.filter (fun p => decide (p.1 < p.2))).map Prod.fst)
  cover : unionB B.chunks ∪ Finset.Ico B.cur.1 B.cur.2 = Finset.range i

/-- Full characterization of `_chunk_transcript` by the index pairs of
`chunkBounds`: every returned chunk is the Python slice of its bounds, the
bounds are well-formed, together they cover the input index range exactly,
starts are nondecreasing, stops strictly increasing, and starts of
non-empty chunks strictly increasing. -/
structure ChunkFinal (segs : List String) (ov : Nat) (mmt : Int) : Prop where
  charEq : _chunk_transcript ov segs mmt =
    (chunkBounds ov segs mmt).map (fun p => pySlice segs p.1 p.2)
  bnd_wf : ∀ p ∈ chunkBounds ov segs mmt, p.1 ≤ p.2 ∧ p.2 ≤ segs.length
  cover : unionB (chunkBounds ov segs mmt) = Finset.range segs.length
  starts_mono : List.Pairwise (· ≤ ·) ((chunkBounds ov segs mmt).map Prod.fst)
  stops_mono : List.Pairwise (· < ·) ((chunkBounds ov segs mmt).map Prod.snd)
  ne_starts_mono : List.Pairwise (· < ·)
    (((chunkBounds ov segs mmt).filter (fun p => decide (p.1 < p.2))).map Prod.fst)

/-- Python computes `max(last_chunk_start_idx + 1, i - overlap_tokens)` over
ints, where `i - overlap_tokens` may be negative; since the left argument is
at least `1`, this agrees with the truncated `Nat` subtraction used in
`chunkStep`. -/
theorem overlap_start_int_agrees (l i ov : Nat) :
    (max ((l : Int) + 1) ((i : Int) - (ov : Int))).toNat = max (l + 1) (i - ov) := by
  rcases le_or_lt (ov : Int) (i : Int) with h | h
  · have hi : ((i - ov : Nat) : Int) = (i : Int) - (ov : Int) := by
      have : ov ≤ i := by exact_mod_cast h
      omega
    omega
  · have : i - ov = 0 := by omega
    rw [this]
    omega

theorem pySlice_min_left (l : List α) (a b : Nat) :
    pySlice l (min a b) b = pySlice l a b := by
  rcases le_total a b with h | h
  · rw [min_eq_left h]
  · have h0 : b - a = 0 := by omega
    have h1 : min a b = b := min_eq_right h
    simp [pySlice, h0, h1]

theorem pySlice_extend (l : List String) (a i : Nat) (ha : a ≤ i) (hi : i < l.length) :
    pySlice l a i ++ [l.getD i ""] = pySlice l a (i + 1) := by
  have h1 : i + 1 - a = (i - a) + 1 := by omega
  have h2 : (l.drop a)[i - a]? = l[i]? := by
    rw [List.getElem?_drop]
    congr 1
    omega
  have h3 : l[i]? = some l[i] := List.getElem?_eq_getElem hi
  have h4 : l.getD i "" = l[i] := by
    rw [List.getD_eq_getElem?_getD, h3]
    rfl
  rw [pySlice, pySlice, h1, List.take_succ, h2, h3, h4]
  rfl

theorem sumTokens_append_singleton (l : List String) (s : String) :
    sumTokens (l ++ [s]) = sumTokens l + _estimate_tokens s := by
  simp [sumTokens, List.foldl_append]

theorem pySlice_eq_nil_iff (l : List α) (a b : Nat) (hb : b ≤ l.length) :
    pySlice l a b = [] ↔ b ≤ a := by
  constructor
  · intro h
    by_contra hab
    push_neg at hab
    have hlen : (pySlice l a b).length = min (b - a) (l.length - a) := by
      simp [pySlice, List.length_take, List.length_drop]
    rw [h] at hlen
    rw [List.length_nil] at hlen
    omega
  · intro h
    have h0 : b - a = 0 := by omega
    simp [pySlice, h0]

theorem unionB_nil : unionB [] = ∅ := rfl

theorem unionB_cons (p : Nat × Nat) (t : List (Nat × Nat)) :
    unionB (p :: t) = Finset.Ico p.1 p.2 ∪ unionB t := rfl

theorem mem_unionB {x : Nat} :
    ∀ {l : List (Nat × Nat)}, x ∈ unionB l ↔ ∃ p ∈ l, p.1 ≤ x ∧ x < p.2
  | [] => by simp [unionB]
  | p :: t => by
    rw [unionB_cons, Finset.mem_union, Finset.mem_Ico]
    simp only [List.mem_cons]
    constructor
    · rintro (h | h)
      · exact ⟨p, Or.inl rfl, h⟩
      · obtain ⟨q, hq, hx⟩ := mem_unionB.mp h
        exact ⟨q, Or.inr hq, hx⟩
    · rintro ⟨q, (rfl | hq), hx⟩
      · exact Or.inl hx
      · exact Or.inr (mem_unionB.mpr ⟨q, hq, hx⟩)

theorem unionB_append (l₁ l₂ : List (Nat × Nat)) :
    unionB (l₁ ++ l₂) = unionB l₁ ∪ unionB l₂ := by
  induction l₁ with
  | nil => simp [unionB_nil]
  | cons p t ih => rw [List.cons_append, unionB_cons, unionB_cons, ih, Finset.union_assoc]

theorem unionB_singleton (p : Nat × Nat) : unionB [p] = Finset.Ico p.1 p.2 := by
  rw [unionB_cons, unionB_nil, Finset.union_empty]

theorem chunkInv_init (segs : List String) :
    ChunkInv segs 0 ⟨[], [], 0, 0⟩ ⟨[], (0, 0), 0⟩ := by
  refine ⟨rfl, rfl, rfl, rfl, rfl, le_refl _, le_refl _, ?_, ?_, ?_, ?_, ?_, ?_, ?_⟩ <;>
    simp [unionB]

theorem chunkStep_pos (ov : Nat) (segs : List String) (avail : ℚ) (S : ChunkState) (i : Nat)
    (hc : avail < S.current_tokens + _estimate_tokens (segs.getD i "")) :
    chunkStep ov segs avail S i =
      ⟨S.chunks ++ [S.current_chunk],
        pySlice segs (max (S.last_chunk_start_idx + 1) (i - ov)) i ++ [segs.getD i ""],
        sumTokens (pySlice segs (max (S.last_chunk_start_idx + 1) (i - ov)) i) +
          _estimate_tokens (segs.getD i ""),
        max (S.last_chunk_start_idx + 1) (i - ov)⟩ := by
  simp only [chunkStep]
  rw [if_pos hc]

theorem chunkStep_neg (ov : Nat) (segs : List String) (avail : ℚ) (S : ChunkState) (i : Nat)
    (hc : ¬avail < S.current_tokens + _estimate_tokens (segs.getD i "")) :
    chunkStep ov segs avail S i =
      ⟨S.chunks, S.current_chunk ++ [segs.getD i ""],
        S.current_tokens + _estimate_tokens (segs.getD i ""), S.last_chunk_start_idx⟩ := by
  simp only [chunkStep]
  rw [if_neg hc]

theorem boundStep_pos (ov : Nat) (segs : List String) (avail : ℚ) (B : BoundState) (i : Nat)
    (hc : avail < sumTokens (pySlice segs B.cur.1 B.cur.2) + _estimate_tokens (segs.getD i "")) :
    boundStep ov segs avail B i =
      ⟨B.chunks ++ [B.cur], (min (max (B.last + 1) (i - ov)) i, i + 1),
        max (B.last + 1) (i - ov)⟩ := by
  simp only [boundStep]
  rw [if_pos hc]

theorem boundStep_neg (ov : Nat) (segs : List String) (avail : ℚ) (B : BoundState) (i : Nat)
    (hc : ¬avail < sumTokens (pySlice segs B.cur.1 B.cur.2) + _estimate_tokens (segs.getD i "")) :
    boundStep ov segs avail B i = ⟨B.chunks, (B.cur.1, B.cur.2 + 1), B.last⟩ := by
  simp only [boundStep]
  rw [if_neg hc]

theorem chunkInv_step (ov : Nat) (segs : List String) (avail : ℚ) (i : Nat)
    (hi : i < segs.length) (S : ChunkState) (B : BoundState) (h : ChunkInv segs i S B) :
    ChunkInv segs (i + 1) (chunkStep ov segs avail S i) (boundStep ov segs avail B i) := by
  have h_c1_le_i : B.cur.1 ≤ i := by
    have h1 := h.cur_le
    have h2 := h.cur_stop
    omega
  by_cases hc : avail < sumTokens (pySlice segs B.cur.1 B.cur.2) +
      _estimate_tokens (segs.getD i "")
  · -- the budget is exceeded: close the current chunk and reseed with overlap
    have hcS : avail < S.current_tokens + _estimate_tokens (segs.getD i "") := by
      rw [h.tokEq, h.curEq]
      exact hc
    rw [chunkStep_pos ov segs avail S i hcS, boundStep_pos ov segs avail B i hc, h.lastEq]
    have h_os_last : B.last + 1 ≤ max (B.last + 1) (i - ov) := le_max_left _ _
    have h_c1_lt_os : B.cur.1 < max (B.last + 1) (i - ov) := by
      have := h.cur_last
      omega
    have h_c1_le_min : B.cur.1 ≤ min (max (B.last + 1) (i - ov)) i := by omega
    refine ⟨?_, ?_, ?_, rfl, rfl, ?_, ?_, ?_, ?_, ?_, ?_, ?_, ?_, ?_⟩
    · -- chunksEq
      rw [h.chunksEq, h.curEq, List.map_append]
      rfl
    · -- curEq
      show pySlice segs (max (B.last + 1) (i - ov)) i ++ [segs.getD i ""] =
        pySlice segs (min (max (B.last + 1) (i - ov)) i) (i + 1)
      rw [← pySlice_extend segs (min (max (B.last + 1) (i - ov)) i) i (min_le_right _ _) hi,
        pySlice_min_left]
    · -- tokEq
      show sumTokens (pySlice segs (max (B.last + 1) (i - ov)) i) +
          _estimate_tokens (segs.getD i "") =
        sumTokens (pySlice segs (max (B.last + 1) (i - ov)) i ++ [segs.getD i ""])
      rw [sumTokens_append_singleton]
    · -- cur_le
      show min (max (B.last + 1) (i - ov)) i ≤ i + 1
      omega
    · -- cur_last
      show min (max (B.last + 1) (i - ov)) i ≤ max (B.last + 1) (i - ov)
      omega
    · -- bnd_wf
      intro p hp
      rcases List.mem_append.mp hp with hp | hp
      · have := h.bnd_wf p hp
        omega
      · rcases List.mem_singleton.mp hp with rfl
        have h1 := h.cur_le
        have h2 := h.cur_stop
        omega
    · -- starts_le
      intro p hp
      show p.1 ≤ min (max (B.last + 1) (i - ov)) i
      rcases List.mem_append.mp hp with hp | hp
      · have := h.starts_le p hp
        omega
      · rcases List.mem_singleton.mp hp with rfl
        omega
    · -- starts_strict
      intro p hp hne
      show p.1 < min (max (B.last + 1) (i - ov)) i
      rcases List.mem_append.mp hp with hp | hp
      · have := h.starts_strict p hp hne
        omega
      · rcases List.mem_singleton.mp hp with rfl
        have h2 := h.cur_stop
        omega
    · -- starts_mono
      rw [List.map_append]
      rw [List.pairwise_append]
      refine ⟨h.starts_mono, List.pairwise_singleton _ _, ?_⟩
      intro a ha b hb
      rcases List.mem_map.mp ha with ⟨p, hp, rfl⟩
      rcases List.mem_singleton.mp (by simpa using hb) with rfl
      exact h.starts_le p hp
    · -- stops_mono
      rw [List.map_append, List.pairwise_append]
      refine ⟨h.stops_mono, List.pairwise_singleton _ _, ?_⟩
      intro a ha b hb
      rcases List.mem_map.mp ha with ⟨p, hp, rfl⟩
      rcases List.mem_singleton.mp (by simpa using hb) with rfl
      have h2 := h.cur_stop
      have := h.bnd_wf p hp
      omega
    · -- ne_starts_mono
      rw [List.filter_append, List.map_append, List.pairwise_append]
      refine ⟨h.ne_starts_mono, ?_, ?_⟩
      · by_cases hbc : B.cur.1 < B.cur.2
        · simp [List.filter_cons, hbc]
        · simp [List.filter_cons, hbc]
      · intro a ha b hb
        rcases List.mem_map.mp ha with ⟨p, hp, rfl⟩
        rcases List.mem_map.mp hb with ⟨q, hq, rfl⟩
        have hpm := List.mem_of_mem_filter hp
        have hpne : p.1 < p.2 := by
          have := List.of_mem_filter hp
          simpa using this
        have hqm := List.mem_of_mem_filter hq
        rcases List.mem_singleton.mp hqm with rfl
        have := h.starts_strict p hpm hpne
        omega
    · -- cover
      show unionB (B.chunks ++ [B.cur]) ∪
          Finset.Ico (min (max (B.last + 1) (i - ov)) i) (i + 1) = Finset.range (i + 1)
      refine Finset.ext fun x => ?_
      have hx := Finset.ext_iff.mp h.cover x
      rw [Finset.mem_union, Finset.mem_Ico, Finset.mem_range] at hx
      rw [unionB_append, unionB_singleton, Finset.mem_union, Finset.mem_union,
        Finset.mem_Ico, Finset.mem_Ico, Finset.mem_range]
      have hc2 := h.cur_stop
      constructor
      · rintro ((hu | hcur) | hnew)
        · have : x < i := hx.mp (Or.inl hu)
          omega
        · have : x < i := hx.mp (Or.inr hcur)
          omega
        · omega
      · intro hxi
        rcases Nat.lt_or_ge x i with hlt | hge
        · rcases hx.mpr hlt with hu | hcur
          · exact Or.inl (Or.inl hu)
          · exact Or.inl (Or.inr hcur)
        · exact Or.inr ⟨by omega, by omega⟩
  · -- the segment fits: extend the current chunk
    have hcS : ¬avail < S.current_tokens + _estimate_tokens (segs.getD i "") := by
      rw [h.tokEq, h.curEq]
      exact hc
    rw [chunkStep_neg ov segs avail S i hcS, boundStep_neg ov segs avail B i hc]
    refine ⟨h.chunksEq, ?_, ?_, h.lastEq, ?_, ?_, h.cur_last, ?_, h.starts_le,
      h.starts_strict, h.starts_mono, h.stops_mono, h.ne_starts_mono, ?_⟩
    · -- curEq
      show S.current_chunk ++ [segs.getD i ""] = pySlice segs B.cur.1 (B.cur.2 + 1)
      rw [h.curEq, h.cur_stop, pySlice_extend segs B.cur.1 i h_c1_le_i hi]
    · -- tokEq
      show S.current_tokens + _estimate_tokens (segs.getD i "") =
        sumTokens (S.current_chunk ++ [segs.getD i ""])
      rw [sumTokens_append_singleton, h.tokEq]
    · -- cur_stop
      show B.cur.2 + 1 = i + 1
      rw [h.cur_stop]
    · -- cur_le
      show B.cur.1 ≤ B.cur.2 + 1
      have := h.cur_le
      omega
    · -- bnd_wf
      intro p hp
      have := h.bnd_wf p hp
      omega
    · -- cover
      show unionB B.chunks ∪ Finset.Ico B.cur.1 (B.cur.2 + 1) = Finset.range (i + 1)
      refine Finset.ext fun x => ?_
      have hx := Finset.ext_iff.mp h.cover x
      rw [Finset.mem_union, Finset.mem_Ico, Finset.mem_range] at hx
      rw [Finset.mem_union, Finset.mem_Ico, Finset.mem_range]
      have hc2 := h.cur_stop
      have hc1 := h.cur_le
      constructor
      · rintro (hu | hcur)
        · have : x < i := hx.mp (Or.inl hu)
          omega
        · omega
      · intro hxi
        rcases Nat.lt_or_ge x i with hlt | hge
        · rcases hx.mpr hlt with hu | hcur
          · exact Or.inl hu
          · exact Or.inr ⟨hcur.1, by omega⟩
        · exact Or.inr ⟨by omega, by omega⟩

theorem chunkInv_fold (ov : Nat) (segs : List String) (avail : ℚ) :
    ∀ m, m ≤ segs.length →
      ChunkInv segs m
        ((List.range m).foldl (chunkStep ov segs avail) ⟨[], [], 0, 0⟩)
        ((List.range m).foldl (boundStep ov segs avail) ⟨[], (0, 0), 0⟩) := by
  intro m
  induction m with
  | zero =>
    intro _
    simpa using chunkInv_init segs
  | succ m ih =>
    intro hm
    rw [List.range_succ, List.foldl_append, List.foldl_append]
    simp only [List.foldl_cons, List.foldl_nil]
    exact chunkInv_step ov segs avail m (by omega) _ _ (ih (by omega))

theorem chunkBounds_spec (segs : List String) (ov : Nat) (mmt : Int) :
    ChunkFinal segs ov mmt := by
  have h := chunkInv_fold ov segs ((mmt : ℚ) - 1000) segs.length (le_refl _)
  set S := (List.range segs.length).foldl (chunkStep ov segs ((mmt : ℚ) - 1000))
    ⟨[], [], 0, 0⟩ with hS
  set B := (List.range segs.length).foldl (boundStep ov segs ((mmt : ℚ) - 1000))
    ⟨[], (0, 0), 0⟩ with hB
  have hchunk : _chunk_transcript ov segs mmt =
      (if S.current_chunk.isEmpty then S.chunks else S.chunks ++ [S.current_chunk]) := rfl
  have hbounds : chunkBounds ov segs mmt =
      (if B.cur.1 < B.cur.2 then B.chunks ++ [B.cur] else B.chunks) := rfl
  have hempty : S.current_chunk.isEmpty = true ↔ ¬B.cur.1 < B.cur.2 := by
    rw [List.isEmpty_iff, h.curEq,
      pySlice_eq_nil_iff segs B.cur.1 B.cur.2 (le_of_eq h.cur_stop)]
    omega
  by_cases hflush : B.cur.1 < B.cur.2
  · have hne : ¬S.current_chunk.isEmpty = true := fun hh => (hempty.mp hh) hflush
    refine ⟨?_, ?_, ?_, ?_, ?_, ?_⟩
    · rw [hchunk, hbounds, if_neg hne, if_pos hflush, List.map_append, h.chunksEq, h.curEq]
      rfl
    · rw [hbounds, if_pos hflush]
      intro p hp
      rcases List.mem_append.mp hp with hp | hp
      · have := h.bnd_wf p hp
        omega
      · rcases List.mem_singleton.mp hp with rfl
        exact ⟨h.cur_le, le_of_eq h.cur_stop⟩
    · rw [hbounds, if_pos hflush, unionB_append, unionB_singleton]
      exact h.cover
    · rw [hbounds, if_pos hflush, List.map_append, List.pairwise_append]
      refine ⟨h.starts_mono, List.pairwise_singleton _ _, ?_⟩
      intro a ha b hb
      rcases List.mem_map.mp ha with ⟨p, hp, rfl⟩
      rcases List.mem_singleton.mp (by simpa using hb) with rfl
      exact h.starts_le p hp
    · rw [hbounds, if_pos hflush, List.map_append, List.pairwise_append]
      refine ⟨h.stops_mono, List.pairwise_singleton _ _, ?_⟩
      intro a ha b hb
      rcases List.mem_map.mp ha with ⟨p, hp, rfl⟩
      rcases List.mem_singleton.mp (by simpa using hb) with rfl
      have := h.bnd_wf p hp
      have h2 := h.cur_stop
      omega
    · rw [hbounds, if_pos hflush, List.filter_append, List.map_append, List.pairwise_append]
      refine ⟨h.ne_starts_mono, ?_, ?_⟩
      · simp [List.filter_cons, hflush]
      · intro a ha b hb
        rcases List.mem_map.mp ha with ⟨p, hp, rfl⟩
        rcases List.mem_map.mp hb with ⟨q, hq, rfl⟩
        have hpm := List.mem_of_mem_filter hp
        have hpne : p.1 < p.2 := by
          have := List.of_mem_filter hp
          simpa using this
        have hqm := List.mem_of_mem_filter hq
        have hqs : q ∈ [B.cur] := by
          simpa [List.filter_cons, hflush] using hq
        rcases List.mem_singleton.mp hqs with rfl
        exact h.starts_strict p hpm hpne
  · have hemp : S.current_chunk.isEmpty = true := hempty.mpr hflush
    refine ⟨?_, ?_, ?_, ?_, ?_, ?_⟩
    · rw [hchunk, hbounds, if_pos hemp, if_neg hflush]
      exact h.chunksEq
    · rw [hbounds, if_neg hflush]
      intro p hp
      have := h.bnd_wf p hp
      omega
    · rw [hbounds, if_neg hflush]
      have hico : Finset.Ico B.cur.1 B.cur.2 = ∅ := Finset.Ico_eq_empty hflush
      have := h.cover
      rw [hico, Finset.union_empty] at this
      exact this
    · rw [hbounds, if_neg hflush]
      exact h.starts_mono
    · rw [hbounds, if_neg hflush]
      exact h.stops_mono
    · rw [hbounds, if_neg hflush]
      exact h.ne_starts_mono

theorem pairwise_get_map {α β : Type _} {R : β → β → Prop} (f : α → β) (l : List α)
    (h : List.Pairwise R (l.map f)) (a b : Nat) (hab : a < b) (hb : b < l.length) :
    R (f (l.get ⟨a, lt_trans hab hb⟩)) (f (l.get ⟨b, hb⟩)) := by
  rw [List.pairwise_iff_get] at h
  have ha' : a < (l.map f).length := by
    rw [List.length_map]
    exact lt_trans hab hb
  have hb' : b < (l.map f).length := by
    rw [List.length_map]
    exact hb
  have := h ⟨a, ha'⟩ ⟨b, hb'⟩ hab
  rwa [List.get_eq_getElem, List.get_eq_getElem, List.getElem_map, List.getElem_map] at this

theorem getD_of_lt (l : List (Nat × Nat)) (a : Nat) (ha : a < l.length) :
    l.getD a (0, 0) = l.get ⟨a, ha⟩ := by
  rw [List.getD_eq_getElem?_getD, List.getElem?_eq_getElem ha]
  rfl

theorem getD_mem_pySlice (l : List String) (a b k : Nat) (ha : a ≤ k) (hb : k < b)
    (hlen : b ≤ l.length) : l.getD k "" ∈ pySlice l a b := by
  have hk : k < l.length := lt_of_lt_of_le hb hlen
  have hdrop : (l.drop a)[k - a]? = l[k]? := by
    rw [List.getElem?_drop]
    congr 1
    omega
  have htake : (pySlice l a b)[k - a]? = l[k]? := by
    rw [pySlice, List.getElem?_take_of_lt (by omega)]
    exact hdrop
  have hsome : l[k]? = some l[k] := List.getElem?_eq_getElem hk
  have hgd : l.getD k "" = l[k] := by
    rw [List.getD_eq_getElem?_getD, hsome]
    rfl
  rw [hgd]
  exact List.getElem?_mem (htake.trans hsome)

theorem boundStep_chunks_prefix (ov : Nat) (segs : List String) (avail : ℚ)
    (B : BoundState) (i : Nat) :
    ∃ t, (boundStep ov segs avail B i).chunks = B.chunks ++ t := by
  by_cases hc : avail < sumTokens (pySlice segs B.cur.1 B.cur.2) +
      _estimate_tokens (segs.getD i "")
  · exact ⟨[B.cur], by rw [boundStep_pos ov segs avail B i hc]⟩
  · exact ⟨[], by rw [boundStep_neg ov segs avail B i hc, List.append_nil]⟩

theorem foldl_boundStep_prefix (ov : Nat) (segs : List String) (avail : ℚ) :
    ∀ (l : List Nat) (B : BoundState),
      ∃ t, (l.foldl (boundStep ov segs avail) B).chunks = B.chunks ++ t := by
  intro l
  induction l with
  | nil => exact fun B => ⟨[], by simp⟩
  | cons a t ih =>
    intro B
    obtain ⟨t₂, h₂⟩ := ih (boundStep ov segs avail B a)
    obtain ⟨t₁, h₁⟩ := boundStep_chunks_prefix ov segs avail B a
    exact ⟨t₁ ++ t₂, by rw [List.foldl_cons, h₂, h₁, List.append_assoc]⟩

theorem boundStep_zero_oversize (ov : Nat) (segs : List String) (avail : ℚ)
    (h0 : avail < _estimate_tokens (segs.getD 0 "")) :
    boundStep ov segs avail ⟨[], (0, 0), 0⟩ 0 = ⟨[(0, 0)], (0, 1), 1⟩ := by
  have hz : sumTokens (pySlice segs 0 0) = 0 := by
    simp [pySlice, sumTokens]
  have hc : avail < sumTokens (pySlice segs 0 0) + _estimate_tokens (segs.getD 0 "") := by
    rw [hz, zero_add]
    exact h0
  rw [boundStep_pos ov segs avail ⟨[], (0, 0), 0⟩ 0 hc]
  simp

theorem noteLoop_spec (oracle : LLMOracle) (bm : String) :
    ∀ (chunks : List (List String)) (k : Nat) (acc : List String),
      (∀ e, (noteLoop oracle bm chunks k acc).1 = .error e →
        ∃ j p m, (noteLoop oracle bm chunks k acc).2 = j + 1 ∧ oracle j p m = .error e) ∧
      ∀ v, (noteLoop oracle bm chunks k acc).1 = .ok v →
        (noteLoop oracle bm chunks k acc).2 = k + chunks.length := by
  intro chunks
  induction chunks with
  | nil =>
    intro k acc
    refine ⟨fun e he => ?_, fun v _ => ?_⟩
    · simp [noteLoop] at he
    · simp [noteLoop]
  | cons c rest ih =>
    intro k acc
    rcases hcall : oracle k (_create_note_taking_prompt (joinSep " " c)) bm with e' | s
    · have hstep : noteLoop oracle bm (c :: rest) k acc = (.error e', k + 1) := by
        rw [noteLoop, hcall]
      refine ⟨fun e he => ?_, fun v hv => ?_⟩
      · rw [hstep] at he ⊢
        cases he
        exact ⟨k, _, bm, rfl, hcall⟩
      · rw [hstep] at hv
        cases hv
    · have hstep : noteLoop oracle bm (c :: rest) k acc =
          noteLoop oracle bm rest (k + 1) (acc ++ [s]) := by
        rw [noteLoop, hcall]
      refine ⟨fun e he => ?_, fun v hv => ?_⟩
      · rw [hstep] at he ⊢
        exact (ih (k + 1) (acc ++ [s])).1 e he
      · rw [hstep] at hv ⊢
        have := (ih (k + 1) (acc ++ [s])).2 v hv
        rw [this, List.length_cons]
        omega

-- Sanity checks of the embedding on concrete runs (each traced by hand
-- against the Python source).
example : _chunk_transcript 1000 [] 4000 = [] := by decide

example : _chunk_transcript 1000 ["[00:00] hi"] 4000 = [["[00:00] hi"]] := by
  norm_num [_chunk_transcript, chunkStep, pySlice, sumTokens, _estimate_tokens,
    List.range_succ, show pyWordCount "[00:00] hi" = 2 by decide]

example : _chunk_transcript 1000 ["a b c"] 1002 = [[], ["a b c"]] := by
  norm_num [_chunk_transcript, chunkStep, pySlice, sumTokens, _estimate_tokens,
    List.range_succ, show pyWordCount "a b c" = 3 by decide]

example :
    _chunk_transcript 2 ["a0", "a1", "a2", "a3", "a4"] 1004 =
      [["a0", "a1", "a2"], ["a1", "a2", "a3"], ["a2", "a3", "a4"]] := by
  norm_num [_chunk_transcript, chunkStep, pySlice, sumTokens, _estimate_tokens,
    List.range_succ, show pyWordCount "a0" = 1 by decide,
    show pyWordCount "a1" = 1 by decide, show pyWordCount "a2" = 1 by decide,
    show pyWordCount "a3" = 1 by decide, show pyWordCount "a4" = 1 by decide]

example :
    _chunk_transcript 2 ["a0", "a1", "b b b b b b", "a3"] 1004 =
      [["a0", "a1"], ["a1", "b b b b b b"], ["b b b b b b", "a3"]] := by
  norm_num [_chunk_transcript, chunkStep, pySlice, sumTokens, _estimate_tokens,
    List.range_succ, show pyWordCount "a0" = 1 by decide,
    show pyWordCount "a1" = 1 by decide, show pyWordCount "a3" = 1 by decide,
    show pyWordCount "b b b b b b" = 6 by decide]

example : chunkBounds 2 ["a0", "a1", "a2", "a3", "a4"] 1004 = [(0, 3), (1, 4), (2, 5)] := by
  norm_num [chunkBounds, boundStep, pySlice, sumTokens, _estimate_tokens,
    List.range_succ, show pyWordCount "a0" = 1 by decide,
    show pyWordCount "a1" = 1 by decide, show pyWordCount "a2" = 1 by decide,
    show pyWordCount "a3" = 1 by decide, show pyWordCount "a4" = 1 by decide]

example : _estimate_tokens "a b" = 13 / 5 := by
  norm_num [_estimate_tokens, show pyWordCount "a b" = 2 by decide]

example : _estimate_tokens "abcd" = 13 / 10 := by
  norm_num [_estimate_tokens, show pyWordCount "abcd" = 1 by decide]

-- Sanity checks of the JSON/markdown model (each traced by hand against
-- the Python source; the second mirrors the spec's "01:05-02:10 → 65s"
-- scenario).
example :
    render_tools "vid" (.obj [("ai_tools", .arr [.obj [("name", .str "Foo"),
      ("description", .str "bar")]])]) = .ok "### Foo\nbar\n" := rfl

example :
    render_tools "vid" (.obj [("ai_tools", .arr [.obj [("name", .str "T"),
      ("description", .str "d"),
      ("timestamp_ranges", .arr [.str "01:05-02:10"])]])]) =
    .ok "### T\n**Discussed at:** [🎥 01:05-02:10](https://www.youtube.com/watch?v=vid&t=65s)\n\nd\n" := rfl

example :
    render_tools "vid" (.obj [("ai_tools", .arr [.obj [("name", .str "T"),
      ("description", .str "d"),
      ("timestamp_ranges", .arr [.str "abc"])]])]) = .error () := rfl

example : render_tools "vid" (.obj []) = .error () := rfl

example :
    format_insights_markdown (fun _ => none)
      ⟨"notes", "not json", some "sum", none⟩ "vid" "now" =
    .ok (markdown_template "now" "vid" "sum" "```\nnot json\n```" "notes") := rfl

-- Named evaluation lemmas for the concrete runs used by counterexamples
-- and witnesses below.
theorem chunk_run_five :
    _chunk_transcript 2 ["a0", "a1", "a2", "a3", "a4"] 1004 =
      [["a0", "a1", "a2"], ["a1", "a2", "a3"], ["a2", "a3", "a4"]] := by
  norm_num [_chunk_transcript, chunkStep, pySlice, sumTokens, _estimate_tokens,
    List.range_succ, show pyWordCount "a0" = 1 by decide,
    show pyWordCount "a1" = 1 by decide, show pyWordCount "a2" = 1 by decide,
    show pyWordCount "a3" = 1 by decide, show pyWordCount "a4" = 1 by decide]

theorem bounds_run_five :
    chunkBounds 2 ["a0", "a1", "a2", "a3", "a4"] 1004 = [(0, 3), (1, 4), (2, 5)] := by
  norm_num [chunkBounds, boundStep, pySlice, sumTokens, _estimate_tokens,
    List.range_succ, show pyWordCount "a0" = 1 by decide,
    show pyWordCount "a1" = 1 by decide, show pyWordCount "a2" = 1 by decide,
    show pyWordCount "a3" = 1 by decide, show pyWordCount "a4" = 1 by decide]

theorem chunk_run_oversize :
    _chunk_transcript 2 ["a0", "a1", "b b b b b b", "a3"] 1004 =
      [["a0", "a1"], ["a1", "b b b b b b"], ["b b b b b b", "a3"]] := by
  norm_num [_chunk_transcript, chunkStep, pySlice, sumTokens, _estimate_tokens,
    List.range_succ, show pyWordCount "a0" = 1 by decide,
    show pyWordCount "a1" = 1 by decide, show pyWordCount "a3" = 1 by decide,
    show pyWordCount "b b b b b b" = 6 by decide]

/-- C1: for every list of formatted segments and every budget, the chunker
covers the input completely — each returned chunk is a contiguous,
order-preserving Python slice `segs[a:b]` of the input given by
`chunkBounds`, the bounds are well-formed, and the union of the chunks'
index sets (ignoring overlap duplicates) is exactly the full index range
`{0, …, n-1}` with no gaps. -/
theorem chunker_coverage (segs : List String) (ov : Nat) (mmt : Int) :
    _chunk_transcript ov segs mmt =
      (chunkBounds ov segs mmt).map (fun p => pySlice segs p.1 p.2) ∧
    (∀ p ∈ chunkBounds ov segs mmt, p.1 ≤ p.2 ∧ p.2 ≤ segs.length) ∧
    unionB (chunkBounds ov segs mmt) = Finset.range segs.length :=
  ⟨(chunkBounds_spec segs ov mmt).charEq, (chunkBounds_spec segs ov mmt).bnd_wf,
    (chunkBounds_spec segs ov mmt).cover⟩

/-- C2: for every non-empty input and every overlap window (including
windows at least as large as the budget), the chunker makes forward
progress: the starting input index of each successive chunk that contains
at least one segment is strictly greater than the previous such chunk's
starting index; with the slice characterization this pins the chunks of
`_chunk_transcript` to these strictly advancing bounds.  (The Lean model
is a total function, so chunk production always terminates.) -/
theorem chunker_forward_progress (segs : List String) (ov : Nat) (mmt : Int)
    (hne : segs ≠ []) :
    _chunk_transcript ov segs mmt =
      (chunkBounds ov segs mmt).map (fun p => pySlice segs p.1 p.2) ∧
    List.Pairwise (· < ·)
      (((chunkBounds ov segs mmt).filter (fun p => decide (p.1 < p.2))).map Prod.fst) :=
  ⟨(chunkBounds_spec segs ov mmt).charEq, (chunkBounds_spec segs ov mmt).ne_starts_mono⟩

theorem chunker_forward_progress_witness :
    _chunk_transcript 1000 ["hi"] 4000 =
      (chunkBounds 1000 ["hi"] 4000).map (fun p => pySlice ["hi"] p.1 p.2) ∧
    List.Pairwise (· < ·)
      (((chunkBounds 1000 ["hi"] 4000).filter (fun p => decide (p.1 < p.2))).map
        Prod.fst) :=
  chunker_forward_progress ["hi"] 1000 4000 (by decide)

/-- C6 fails on the code: with `overlap_tokens = 2` and five one-word
segments against an available budget of 4 token-equivalents, the middle
segment `"a2"` appears in three chunks — more than the claimed at most
two. -/
theorem chunker_overlap_pair_counterexample :
    ¬(((_chunk_transcript 2 ["a0", "a1", "a2", "a3", "a4"] 1004).filter
        (fun c => decide ("a2" ∈ c))).length ≤ 2) := by
  rw [chunk_run_five]
  decide

/-- C6 (amended): overlap may repeat a segment into more than two chunks,
but the chunks containing a given input index are always consecutive in
the output order: whenever bounds positions `p < q < r` exist and index
`j` lies in chunks `p` and `r`, it also lies in chunk `q`; the returned
chunks are exactly the slices of these bounds. -/
theorem chunker_overlap_consecutive (segs : List String) (ov : Nat) (mmt : Int)
    (j p q r : Nat) (hpq : p < q) (hqr : q < r)
    (hr : r < (chunkBounds ov segs mmt).length)
    (hjp : ((chunkBounds ov segs mmt).getD p (0, 0)).1 ≤ j ∧
      j < ((chunkBounds ov segs mmt).getD p (0, 0)).2)
    (hjr : ((chunkBounds ov segs mmt).getD r (0, 0)).1 ≤ j ∧
      j < ((chunkBounds ov segs mmt).getD r (0, 0)).2) :
    _chunk_transcript ov segs mmt =
      (chunkBounds ov segs mmt).map (fun pr => pySlice segs pr.1 pr.2) ∧
    ((chunkBounds ov segs mmt).getD q (0, 0)).1 ≤ j ∧
      j < ((chunkBounds ov segs mmt).getD q (0, 0)).2 := by
  have hspec := chunkBounds_spec segs ov mmt
  have hq : q < (chunkBounds ov segs mmt).length := lt_trans hqr hr
  have hp : p < (chunkBounds ov segs mmt).length := lt_trans hpq hq
  rw [getD_of_lt _ p hp] at hjp
  rw [getD_of_lt _ r hr] at hjr
  rw [getD_of_lt _ q hq]
  have h1 := pairwise_get_map Prod.fst _ hspec.starts_mono q r hqr hr
  have h2 := pairwise_get_map Prod.snd _ hspec.stops_mono p q hpq hq
  exact ⟨hspec.charEq, le_trans h1 hjr.1, lt_trans hjp.2 h2⟩

theorem chunker_overlap_consecutive_witness :
    _chunk_transcript 2 ["a0", "a1", "a2", "a3", "a4"] 1004 =
      (chunkBounds 2 ["a0", "a1", "a2", "a3", "a4"] 1004).map
        (fun pr => pySlice ["a0", "a1", "a2", "a3", "a4"] pr.1 pr.2) ∧
    ((chunkBounds 2 ["a0", "a1", "a2", "a3", "a4"] 1004).getD 1 (0, 0)).1 ≤ 2 ∧
      2 < ((chunkBounds 2 ["a0", "a1", "a2", "a3", "a4"] 1004).getD 1 (0, 0)).2 :=
  chunker_overlap_consecutive ["a0", "a1", "a2", "a3", "a4"] 2 1004 2 0 1 2
    (by norm_num) (by norm_num)
    (by rw [bounds_run_five]; norm_num)
    (by rw [bounds_run_five]; decide)
    (by rw [bounds_run_five]; decide)

/-- C7 fails on the code in its "exactly one chunk" part: the six-word
segment estimates to 7.8 tokens, far above the available budget of 4, yet
it is copied by the overlap reseeding into a second chunk, so it appears
in two chunks rather than exactly one. -/
theorem chunker_oversize_unique_counterexample :
    (1004 : ℚ) - 1000 < _estimate_tokens "b b b b b b" ∧
    ¬(((_chunk_transcript 2 ["a0", "a1", "b b b b b b", "a3"] 1004).filter
        (fun c => decide ("b b b b b b" ∈ c))).length = 1) := by
  constructor
  · norm_num [_estimate_tokens, show pyWordCount "b b b b b b" = 6 by decide]
  · rw [chunk_run_oversize]
    decide

/-- C7 (amended): a segment whose own estimated cost exceeds the available
budget is never dropped and never split across chunks — it appears as a
whole element of at least one chunk (though overlap seeding may copy it
into more than one). -/
theorem chunker_oversize_kept (segs : List String) (ov : Nat) (mmt : Int)
    (k : Nat) (hk : k < segs.length)
    (hov : (mmt : ℚ) - 1000 < _estimate_tokens (segs.getD k "")) :
    ∃ c ∈ _chunk_transcript ov segs mmt, segs.getD k "" ∈ c := by
  have hspec := chunkBounds_spec segs ov mmt
  have hkmem : k ∈ unionB (chunkBounds ov segs mmt) := by
    rw [hspec.cover, Finset.mem_range]
    exact hk
  obtain ⟨pb, hpb, hle, hlt⟩ := mem_unionB.mp hkmem
  refine ⟨pySlice segs pb.1 pb.2, ?_, ?_⟩
  · rw [hspec.charEq]
    exact List.mem_map.mpr ⟨pb, hpb, rfl⟩
  · exact getD_mem_pySlice segs pb.1 pb.2 k hle hlt (hspec.bnd_wf pb hpb).2

theorem chunker_oversize_kept_witness :
    ∃ c ∈ _chunk_transcript 1000 ["a b c"] 1002, (["a b c"].getD 0 "") ∈ c :=
  chunker_oversize_kept ["a b c"] 1000 1002 0 (by decide)
    (by norm_num [_estimate_tokens, List.getD_cons_zero,
      show pyWordCount "a b c" = 3 by decide])

/-- C10: when the first segment alone already exceeds the available budget
(`max_model_tokens - 1000`; this may even be non-positive), the returned
chunk list begins with an empty chunk, because the still-empty current
chunk is closed before the triggering segment is placed. -/
theorem chunker_leading_empty_chunk (segs : List String) (ov : Nat) (mmt : Int)
    (hne : segs ≠ [])
    (h0 : (mmt : ℚ) - 1000 < _estimate_tokens (segs.getD 0 "")) :
    ∃ rest, _chunk_transcript ov segs mmt = [] :: rest := by
  obtain ⟨m, hm⟩ : ∃ m, segs.length = m + 1 := by
    have : segs.length ≠ 0 := fun hh => hne (List.length_eq_zero.mp hh)
    exact ⟨segs.length - 1, by omega⟩
  have hrange : List.range segs.length = 0 :: (List.range m).map Nat.succ := by
    rw [hm, List.range_succ_eq_map]
  obtain ⟨t, ht⟩ := foldl_boundStep_prefix ov segs ((mmt : ℚ) - 1000)
    ((List.range m).map Nat.succ) ⟨[(0, 0)], (0, 1), 1⟩
  set F := (List.range segs.length).foldl (boundStep ov segs ((mmt : ℚ) - 1000))
    ⟨[], (0, 0), 0⟩ with hF
  have hfold : F.chunks = (0, 0) :: t := by
    rw [hF, hrange, List.foldl_cons, boundStep_zero_oversize ov segs ((mmt : ℚ) - 1000) h0,
      ht]
    rfl
  have hcb : chunkBounds ov segs mmt =
      (if F.cur.1 < F.cur.2 then F.chunks ++ [F.cur] else F.chunks) := rfl
  have hhead : ∃ t', chunkBounds ov segs mmt = (0, 0) :: t' := by
    rw [hcb]
    by_cases hfl : F.cur.1 < F.cur.2
    · rw [if_pos hfl, hfold]
      exact ⟨t ++ [F.cur], by rw [List.cons_append]⟩
    · rw [if_neg hfl, hfold]
      exact ⟨t, rfl⟩
  obtain ⟨t', ht'⟩ := hhead
  refine ⟨t'.map (fun pr => pySlice segs pr.1 pr.2), ?_⟩
  rw [(chunkBounds_spec segs ov mmt).charEq, ht', List.map_cons]
  rfl

theorem chunker_leading_empty_chunk_witness :
    ∃ rest, _chunk_transcript 1000 ["a b c"] 1002 = [] :: rest :=
  chunker_leading_empty_chunk ["a b c"] 1000 1002 (by decide)
    (by norm_num [_estimate_tokens, List.getD_cons_zero,
      show pyWordCount "a b c" = 3 by decide])

/-- C9 fails on the code in its monotonicity part: the estimator is not
monotone in input *length* — `"a b"` (length 3) estimates to 2.6 tokens
while the longer string `"abcd"` (length 4) estimates to only 1.3. -/
theorem estimate_tokens_length_counterexample :
    ("a b").length ≤ ("abcd").length ∧
    ¬(_estimate_tokens "a b" ≤ _estimate_tokens "abcd") := by
  constructor
  · decide
  · norm_num [_estimate_tokens, show pyWordCount "a b" = 2 by decide,
      show pyWordCount "abcd" = 1 by decide]

/-- C9 (amended): the token estimator is the deterministic pure function
`word_count(text) * 1.3`, and it is monotone in the word count: a string
with at least as many words never estimates to fewer tokens. -/
theorem estimate_tokens_spec :
    (∀ s, _estimate_tokens s = (pyWordCount s : ℚ) * (13 / 10)) ∧
    ∀ s t, pyWordCount s ≤ pyWordCount t → _estimate_tokens s ≤ _estimate_tokens t := by
  refine ⟨fun s => rfl, fun s t h => ?_⟩
  unfold _estimate_tokens
  have hc : (pyWordCount s : ℚ) ≤ (pyWordCount t : ℚ) := by exact_mod_cast h
  have hpos : (0 : ℚ) ≤ 13 / 10 := by norm_num
  exact mul_le_mul_of_nonneg_right hc hpos

theorem estimate_tokens_spec_witness :
    _estimate_tokens "a" = (pyWordCount "a" : ℚ) * (13 / 10) ∧
    _estimate_tokens "a" ≤ _estimate_tokens "b c" :=
  ⟨estimate_tokens_spec.1 "a", estimate_tokens_spec.2 "a" "b c" (by decide)⟩

/-- C3 fails on the code as stated: a response that is valid JSON but does
not have the expected payload shape — here the empty object — raises
`KeyError` at `tools_data['ai_tools']` (only `json.JSONDecodeError` is
caught), so the pipeline raises instead of producing the artifact with the
raw text preserved. -/
theorem parse_failure_claim_counterexample :
    format_insights_markdown
      (fun s => if s == "\x7b\x7d" then some (.obj []) else none)
      ⟨"notes", "\x7b\x7d", some "sum", none⟩ "vid" "now" = .error () := rfl

/-- C3 (amended): when the entity-extraction response is not valid
structured syntax at all (`json.loads` itself fails), the pipeline does
not raise: the markdown artifact is still produced, with no entity
records and the raw response text preserved verbatim inside a fenced
block.  (A response that parses as JSON but lacks the expected shape may
still raise.) -/
theorem parse_failure_graceful (json_loads : String → Option JValue)
    (insights : VideoInsights) (video_id current_time : String)
    (hfail : json_loads insights.ai_tools_json = none) :
    format_insights_markdown json_loads insights video_id current_time =
      .ok (markdown_template current_time video_id (pyStrOpt insights.final_summary)
        ("```\n" ++ insights.ai_tools_json ++ "\n```") insights.running_notes) := by
  rw [format_insights_markdown, hfail]
  rfl

theorem parse_failure_graceful_witness :
    format_insights_markdown (fun _ => none) ⟨"n", "raw", some "s", none⟩ "v" "t" =
      .ok (markdown_template "t" "v" "s" "```\nraw\n```" "n") :=
  parse_failure_graceful (fun _ => none) ⟨"n", "raw", some "s", none⟩ "v" "t" rfl

/-- C5: the code contradicts the claim — an entity whose timestamp range
has unparseable time text is not skipped-but-kept; instead
`minutes, seconds = map(int, start_time.split(':'))` raises `ValueError`
(uncaught, since only `json.JSONDecodeError` is handled), so the whole
report fails.  Here the entity "T" with range `"abc"` makes the full
markdown rendering return an error instead of a report containing "T". -/
theorem malformed_timestamp_raises :
    format_insights_markdown
      (fun _ => some (.obj [("ai_tools", .arr [.obj [("name", .str "T"),
        ("description", .str "d"), ("timestamp_ranges", .arr [.str "abc"])]])]))
      ⟨"notes", "raw", some "sum", none⟩ "vid" "now" = .error () := rfl

/-- C8: an entity element carrying only `name` and `description` is
processed without raising — every absent optional list key behaves as an
empty collection and absent scalars as `None`/null — so the rendered
section is exactly the heading plus description, with no timestamp links,
no list sections and no pricing. -/
theorem minimal_entity_renders (nm ds video_id : String) :
    render_tools video_id
      (.obj [("ai_tools", .arr [.obj [("name", .str nm), ("description", .str ds)]])]) =
      .ok ("### " ++ nm ++ "\n" ++ ds ++ "\n") := rfl

/-- C4: a failing LLM call aborts the whole pipeline — the error is
propagated to the caller as the run's result (so no `VideoInsights`
artifact, partial or complete, is returned), and the failing call is the
last call issued: its index plus one equals the total number of calls, so
it is not retried and no later capability call happens.  A fully
successful run instead issues exactly one call per chunk plus the
tools-analysis and final-summary calls. -/
theorem llm_failure_aborts (oracle : LLMOracle) (cfg : ExtractorConfig)
    (transcript_data : List TranscriptSegment) :
    (∀ e, (process_transcript oracle cfg transcript_data).1 = .error e →
      ∃ k p m, (process_transcript oracle cfg transcript_data).2 = k + 1 ∧
        oracle k p m = .error e) ∧
    ∀ v, (process_transcript oracle cfg transcript_data).1 = .ok v →
      (process_transcript oracle cfg transcript_data).2 =
        (_chunk_transcript cfg.overlap_tokens (transcript_data.map format_segment)
          cfg.base_model_max_tokens).length + 2 := by
  set chunks := _chunk_transcript cfg.overlap_tokens (transcript_data.map format_segment)
    cfg.base_model_max_tokens with hch
  have hnl := noteLoop_spec oracle cfg.base_model chunks 0 []
  rcases hres : noteLoop oracle cfg.base_model chunks 0 [] with ⟨nl, k⟩
  rcases nl with e0 | notes
  · have hpt : process_transcript oracle cfg transcript_data = (.error e0, k) := by
      simp only [process_transcript]
      rw [← hch, hres]
    obtain ⟨j, p, m, hj, ho⟩ := hnl.1 e0 (by rw [hres])
    rw [hres] at hj
    refine ⟨fun e he => ?_, fun v hv => ?_⟩
    · rw [hpt] at he
      have he' : (Except.error e0 : Except String VideoInsights) = .error e := he
      cases he'
      exact ⟨j, p, m, by rw [hpt]; exact hj, ho⟩
    · rw [hpt] at hv
      have hv' : (Except.error e0 : Except String VideoInsights) = .ok v := hv
      cases hv'
  · have hk : k = chunks.length := by
      have h2 := hnl.2 notes (by rw [hres])
      rw [hres] at h2
      simpa using h2
    rcases hcall1 : oracle k (_create_tools_analysis_prompt
        (_merge_running_notes notes)) cfg.base_model with e1 | tools_json
    · have hpt : process_transcript oracle cfg transcript_data = (.error e1, k + 1) := by
        simp only [process_transcript]
        rw [← hch]
        simp only [hres, hcall1]
      refine ⟨fun e he => ?_, fun v hv => ?_⟩
      · rw [hpt] at he
        have he' : (Except.error e1 : Except String VideoInsights) = .error e := he
        cases he'
        exact ⟨k, _, _, by rw [hpt], hcall1⟩
      · rw [hpt] at hv
        have hv' : (Except.error e1 : Except String VideoInsights) = .ok v := hv
        cases hv'
    · rcases hcall2 : oracle (k + 1) (_create_final_summary_prompt
          (_merge_running_notes notes)) cfg.thinking_model with e2 | summ
      · have hpt : process_transcript oracle cfg transcript_data = (.error e2, k + 2) := by
          simp only [process_transcript]
          rw [← hch]
          simp only [hres, hcall1, hcall2]
        refine ⟨fun e he => ?_, fun v hv => ?_⟩
        · rw [hpt] at he
          have he' : (Except.error e2 : Except String VideoInsights) = .error e := he
          cases he'
          exact ⟨k + 1, _, _, by rw [hpt], hcall2⟩
        · rw [hpt] at hv
          have hv' : (Except.error e2 : Except String VideoInsights) = .ok v := hv
          cases hv'
      · have hpt : process_transcript oracle cfg transcript_data =
            (.ok ⟨_merge_running_notes notes, tools_json, some summ, none⟩, k + 2) := by
          simp only [process_transcript]
          rw [← hch]
          simp only [hres, hcall1, hcall2]
        refine ⟨fun e he => ?_, fun v hv => ?_⟩
        · rw [hpt] at he
          have he' : (Except.ok ⟨_merge_running_notes notes, tools_json, some summ, none⟩ :
            Except String VideoInsights) = .error e := he
          cases he'
        · rw [hpt]
          show k + 2 = chunks.length + 2
          omega

theorem process_run_fail :
    (process_transcript (fun _ _ _ => Except.error "boom") ⟨1000, "b", "t", 4000⟩
      [⟨0, "hi"⟩]).1 = Except.error "boom" := by
  have h1 : ([⟨0, "hi"⟩] : List TranscriptSegment).map format_segment = ["[00:00] hi"] := by
    decide
  norm_num [process_transcript, h1, noteLoop, _chunk_transcript, chunkStep, pySlice,
    sumTokens, _estimate_tokens, List.range_succ,
    show pyWordCount "[00:00] hi" = 2 by decide]

theorem llm_failure_aborts_witness :
    ∃ k p m,
      (process_transcript (fun _ _ _ => Except.error "boom") ⟨1000, "b", "t", 4000⟩
        [⟨0, "hi"⟩]).2 = k + 1 ∧
      (fun (_ : Nat) (_ _ : String) => (Except.error "boom" : Except String String)) k p m =
        Except.error "boom" :=
  (llm_failure_aborts (fun _ _ _ => Except.error "boom") ⟨1000, "b", "t", 4000⟩
    [⟨0, "hi"⟩]).1 "boom" process_run_fail
